import Mathlib

/-!
Verification of the MetadDNS record data model, resolution algorithm and
write-path merge semantics.

The server (`server.js`) answers A/CNAME/MX queries from a JSON blob held in
an external key-value store; the updater (`dns-update.js`) normalizes a raw
value string and merges it into the stored blob.  The stored blob is parsed
by the JavaScript runtime's JSON facilities into an untyped value, and the
server reads properties of that untyped value directly, so the embedding
models JavaScript values (`JsVal`) together with the semantics of the
property accesses the source performs, including the `TypeError`s that a
property access on `null`/`undefined` raises (the server's outer `try` turns
such an escaped error into a fixed loopback answer).  The typed data model
of the specification (`RecordSet`, `TypeRecords`) is embedded separately and
injected into `JsVal` by the codec.
-/

/-- A JavaScript value as produced by the runtime's JSON parsing, extended
with `undefVal` (the result of reading an absent property), `nan` (the
result of `parseInt` on a non-numeric string), and `inherited member` (the
host value found when a property read falls through to `Object.prototype`:
a built-in function such as `constructor` or `toString`, or the prototype
object itself for `__proto__`).  Object fields are kept in insertion
order, as JavaScript objects do; fields of a parsed JSON object have
pairwise distinct keys. -/
inductive JsVal where
  | undefVal : JsVal
  | null : JsVal
  | bool (b : Bool) : JsVal
  | num (n : Int) : JsVal
  | nan : JsVal
  | str (s : String) : JsVal
  | arr (elems : List JsVal) : JsVal
  | obj (fields : List (String × JsVal)) : JsVal
  | inherited (member : String) : JsVal

/-- First binding of a key in an object's field list: the object's own
property for that key, `none` when the object has no own binding (then the
prototype chain is consulted).  JavaScript objects hold at most one binding
per key, so first-match equals the object's binding. -/
def findField : List (String × JsVal) → String → Option JsVal
  | [], _ => none
  | (k, v) :: fs, key => if k = key then some v else findField fs key

/-- Own property names of `Object.prototype` in the JavaScript runtime:
every plain object (in particular every object built by `JSON.parse`)
inherits these, so reading one of them off an object with no own binding
for it yields a truthy host value rather than `undefined`. -/
def protoMembers : List String :=
  ["constructor", "hasOwnProperty", "isPrototypeOf", "propertyIsEnumerable",
   "toLocaleString", "toString", "valueOf", "__proto__",
   "__defineGetter__", "__defineSetter__", "__lookupGetter__",
   "__lookupSetter__"]

/-- Result of a property read that found no own binding: an
`Object.prototype` member is found on the prototype chain, anything else
is `undefined`. -/
def protoLookup (key : String) : JsVal :=
  if key ∈ protoMembers then .inherited key else .undefVal

/-- Decimal digits of a canonical array index, or `none` when the string is
not a canonical index ("0", or digits with no leading zero). -/
def strIndex? (k : String) : Option Nat :=
  match k.data with
  | [] => none
  | [c] => if c.isDigit then some (c.toNat - 48) else none
  | c :: rest =>
    if c.isDigit ∧ c ≠ '0' ∧ rest.all Char.isDigit then
      some ((c :: rest).foldl (fun a d => a * 10 + (d.toNat - 48)) 0)
    else none

/-- Property read that cannot raise: objects look up their own field and
fall back to the prototype chain; arrays and strings support canonical
numeric indices and `length` and inherit the rest; primitives and the
inherited host values also inherit `Object.prototype`.  (Reading a
property of `null`/`undefined` raises instead; that case is handled by
`JsVal.getProp`.)  The inherited host values are modelled only as far as
the program observes them: they are truthy, they expose the
`Object.prototype` members themselves, and any other read on them yields
`undefined` — the record-type keys the server reads off them are absent in
reality too.  Beyond `length`, the methods arrays, strings and the other
primitives inherit from their own prototypes (`Array.prototype` etc.) are
not modelled; they are reachable only with a non-object stored blob
combined with a method-name label. -/
def jsGet (j : JsVal) (key : String) : JsVal :=
  match j with
  | .obj fs =>
    match findField fs key with
    | some v => v
    | none => protoLookup key
  | .arr xs =>
    if key = "length" then .num xs.length
    else
      match strIndex? key with
      | some i =>
        match (xs.drop i).head? with
        | some v => v
        | none => protoLookup key
      | none => protoLookup key
  | .str s =>
    if key = "length" then .num s.length
    else
      match strIndex? key with
      | some i =>
        match (s.data.drop i).head? with
        | some c => .str (String.mk [c])
        | none => protoLookup key
      | none => protoLookup key
  | .null => .undefVal
  | .undefVal => .undefVal
  | _ => protoLookup key

/-- JavaScript property read: raises a `TypeError` (modelled as `.error ()`)
when the receiver is `null` or `undefined`, otherwise yields `jsGet`. -/
def JsVal.getProp (j : JsVal) (key : String) : Except Unit JsVal :=
  match j with
  | .undefVal => .error ()
  | .null => .error ()
  | _ => .ok (jsGet j key)

/-- JavaScript truthiness: `undefined`, `null`, `false`, `0`, `NaN` and the
empty string are falsy; every array and object (even empty) is truthy, as
is every value inherited from `Object.prototype` (the members are
functions, and `__proto__` is the prototype object). -/
def JsVal.truthy : JsVal → Bool
  | .undefVal => false
  | .null => false
  | .bool b => b
  | .num n => n != 0
  | .nan => false
  | .str s => s != ""
  | .arr _ => true
  | .obj _ => true
  | .inherited _ => true

/-- Property write on a field list: an existing binding is updated in place,
a new key is appended (JavaScript insertion order). -/
def setField : List (String × JsVal) → String → JsVal → List (String × JsVal)
  | [], key, v => [(key, v)]
  | (k, w) :: fs, key, v =>
    if k = key then (key, v) :: fs else (k, w) :: setField fs key v

/-- JavaScript property write, as far as it is visible to the later JSON
serialization of the receiver: mutating an object updates its field list,
except that assigning `__proto__` on an object with no own `__proto__`
binding invokes the inherited prototype setter, which changes no own field
and is invisible to `JSON.stringify` (an own `__proto__` data property —
which `JSON.parse` does create — shadows the setter and is written
normally).  Writing on `null`/`undefined` raises; writing on a primitive
is a silent no-op in non-strict mode; writing on an inherited host value
mutates a non-JSON host object, invisible to the serialization of the
record set, so those receivers are returned unchanged.  (Index writes on
arrays would be serialization-visible but are not modelled: the update
path reaches an array receiver only with a non-writer-produced blob, and
a non-index property added to an array is dropped by `JSON.stringify`.) -/
def JsVal.setProp (j : JsVal) (key : String) (v : JsVal) : Except Unit JsVal :=
  match j with
  | .obj fs =>
    if key = "__proto__" ∧ (findField fs key).isNone then .ok (.obj fs)
    else .ok (.obj (setField fs key v))
  | .null => .error ()
  | .undefVal => .error ()
  | other => .ok other

/-- JavaScript `String.prototype.split` with a single-character separator, on the
character list: every occurrence separates, empty pieces are kept, and the
result is never empty. -/
def splitChar (sep : Char) : List Char → List (List Char)
  | [] => [[]]
  | c :: cs =>
    if c = sep then [] :: splitChar sep cs
    else
      match splitChar sep cs with
      | [] => [[c]]
      | h :: t => (c :: h) :: t

/-- JavaScript `name.split(sep)` for a one-character separator. -/
def jsSplit (sep : Char) (s : String) : List String :=
  (splitChar sep s.data).map String.mk

/-- JavaScript `Array.prototype.join('.')`. -/
def joinDot : List String → String
  | [] => ""
  | [s] => s
  | s :: rest => s ++ "." ++ joinDot rest

/-- JavaScript `parts.slice(-2)`: the last two elements (all of them when fewer). -/
def sliceLast2 (xs : List String) : List String :=
  xs.drop (xs.length - 2)

/-- JavaScript `parts.slice(0, -2)`: everything before the last two elements. -/
def dropLast2 (xs : List String) : List String :=
  xs.take (xs.length - 2)

/-- Function `parseDomainParts` from `server.js`: split the queried name on `.`;
the top domain is the last two labels joined by `.`, the subdomain is the
rest joined by `.`, with `"@"` substituted when that join is empty. -/
def parseDomainParts (name : String) : String × String :=
  let domainParts := jsSplit '.' name
  let topDomain := joinDot (sliceLast2 domainParts)
  let subJoin := joinDot (dropLast2 domainParts)
  (topDomain, if subJoin = "" then "@" else subJoin)

example : parseDomainParts "www.example.com" = ("example.com", "www") := by decide
example : parseDomainParts "example.com" = ("example.com", "@") := by decide
example : parseDomainParts "a.b.example.com" = ("example.com", "a.b") := by decide
example : parseDomainParts "localhost" = ("localhost", "@") := by decide

/-! ## Answer records and answer synthesis (`server.js`) -/

/-- Constant `Packet.TYPE.A` of the DNS protocol library (standard DNS code). -/
def TYPE_A : Nat := 1
/-- Constant `Packet.TYPE.CNAME`. -/
def TYPE_CNAME : Nat := 5
/-- Constant `Packet.TYPE.MX`. -/
def TYPE_MX : Nat := 15
/-- Constant `Packet.CLASS.IN`. -/
def CLASS_IN : Nat := 1

/-- Type-specific payload of a synthesized answer.  The payloads carry the
JavaScript values the source spreads into the answer object (`address` for
A, `domain` for CNAME, `priority`/`exchange` for MX); on malformed stored
data these can be arbitrary values, so they are kept as `JsVal`. -/
inductive RData where
  | a (address : JsVal) : RData
  | cname (domain : JsVal) : RData
  | mx (priority : JsVal) (exchange : JsVal) : RData

/-- One entry of `response.answers`. -/
structure Answer where
  name : String
  type : Nat
  cls : Nat
  ttl : Nat
  rdata : RData

/-- Function `addRecord` from `server.js`: stamps the queried name, the answer type,
class `IN` and the fixed TTL 300 onto the type-specific payload. -/
def addRecord (name : String) (typ : Nat) (rdata : RData) : Answer :=
  { name := name, type := typ, cls := CLASS_IN, ttl := 300, rdata := rdata }

/-- The `forEach` over stored MX entries: pushes one answer per entry with
`priority` and `exchange` read off the entry; reading those properties of a
`null`/`undefined` entry raises, aborting the loop with the answers pushed
so far (`true` in the second component signals the raised error). -/
def mxLoop (name : String) : List JsVal → List Answer × Bool
  | [] => ([], false)
  | mx :: rest =>
    match mx with
    | .null => ([], true)
    | .undefVal => ([], true)
    | _ =>
      let ans := addRecord name TYPE_MX (.mx (jsGet mx "priority") (jsGet mx "exchange"))
      let (more, threw) := mxLoop name rest
      (ans :: more, threw)

/-- The CNAME-serving branch of `addRecordsToResponse`: when
`recordSet.CNAME` is truthy, pushes a single answer whose `domain` is
`recordSet.CNAME[0]`, returning `true`; otherwise falls through (`false`).
The second component is `none` when the branch raised. -/
def cnameBranch (name : String) (recordSet : JsVal) : List Answer × Option Bool :=
  match recordSet.getProp "CNAME" with
  | .error _ => ([], none)
  | .ok cVal =>
    if cVal.truthy then
      match cVal.getProp "0" with
      | .error _ => ([], none)
      | .ok d => ([addRecord name TYPE_CNAME (.cname d)], some true)
    else ([], some false)

/-- Function `addRecordsToResponse` from `server.js`, switching on the query type:
A serves `recordSet.A` (one answer per element) and otherwise falls back to
the CNAME branch; CNAME serves the CNAME branch; MX serves
`recordSet.MX || []` in stored order.  Returns the pushed answers and
`some returnValue`, or `none` in the second component when a `TypeError`
escaped (e.g. `forEach` on a non-array, or a property read on a `null`
entry); the pushed answers of an aborted branch are retained, as the
source mutates `response.answers` in place. -/
def addRecordsToResponse (name : String) (recordSet : JsVal) (qtype : Nat) :
    List Answer × Option Bool :=
  if qtype = TYPE_A then
    match recordSet.getProp "A" with
    | .error _ => ([], none)
    | .ok aVal =>
      if aVal.truthy then
        match aVal with
        | .arr ips => (ips.map fun ip => addRecord name TYPE_A (.a ip), some true)
        | _ => ([], none)
      else cnameBranch name recordSet
  else if qtype = TYPE_CNAME then
    cnameBranch name recordSet
  else if qtype = TYPE_MX then
    match recordSet.getProp "MX" with
    | .error _ => ([], none)
    | .ok mVal =>
      let mxRecords := if mVal.truthy then mVal else .arr []
      match mxRecords with
      | .arr ms =>
        let (ans, threw) := mxLoop name ms
        if threw then (ans, none) else (ans, some (decide (ms.length > 0)))
      | _ => ([], none)
  else ([], some false)

/-! ## Store lookup (`lookupDnsRecords`) and the request pipeline -/

/-- Outcome of `JSON.parse(metadata.dns_records || '{}')` for a stored
customer, abstracting the runtime's JSON text parsing: the field may be
absent or empty (parsed as the empty object), malformed (the parse raises),
or parse to a JavaScript value. -/
inductive ParseOutcome where
  | absent : ParseOutcome
  | malformed : ParseOutcome
  | value (j : JsVal) : ParseOutcome

/-- Outcome of the `stripe.customers.list` call for one apex domain: the
call may raise, find no customer, or find a customer carrying a
`dns_records` metadata field. -/
inductive StoreOutcome where
  | listError : StoreOutcome
  | noCustomer : StoreOutcome
  | customer (records : ParseOutcome) : StoreOutcome

/-- Function `lookupDnsRecords` from `server.js`: a store error or missing customer
yields `null`; otherwise the blob is parsed (a parse error is caught and
yields `null`), the subdomain's entry is read, a falsy entry for a
non-`"@"` subdomain falls back to the `"*"` entry, and a falsy final value
becomes `null`.  Property-read `TypeError`s inside are caught by the inner
`try` and also yield `null`. -/
def lookupDnsRecords (o : StoreOutcome) (subdomain : String) : Option JsVal :=
  match o with
  | .listError => none
  | .noCustomer => none
  | .customer p =>
    match (match p with
           | .absent => some (.obj [])
           | .malformed => none
           | .value j => some j : Option JsVal) with
    | none => none
    | some dnsRecords =>
      match dnsRecords.getProp subdomain with
      | .error _ => none
      | .ok rs =>
        if !rs.truthy && subdomain != "@" then
          match dnsRecords.getProp "*" with
          | .error _ => none
          | .ok rs2 => if rs2.truthy then some rs2 else none
        else if rs.truthy then some rs else none

/-- The fixed fallback answer pushed by the `catch` block of
`_handleRequest`. -/
def fallbackAnswer (name : String) : Answer :=
  { name := name, type := TYPE_A, cls := CLASS_IN, ttl := 300,
    rdata := .a (.str "127.0.0.1") }

/-- Function `_handleRequest` from `server.js`: parse the queried name, look up the
record set for its apex and subdomain (all internal errors of the lookup
are caught inside it), synthesize answers when a record set was found, and
append the fixed loopback answer when an error escaped to the outer
`catch`.  The store is a map from apex domain to its lookup outcome. -/
def handleRequest (store : String → StoreOutcome) (name : String) (qtype : Nat) :
    List Answer :=
  let parts := parseDomainParts name
  match lookupDnsRecords (store parts.1) parts.2 with
  | none => []
  | some recordSet =>
    match addRecordsToResponse name recordSet qtype with
    | (pushed, some _) => pushed
    | (pushed, none) => pushed ++ [fallbackAnswer name]

/-- Whether an unexpected failure escaped the fail-soft boundary during the
read pipeline, i.e. whether the outer `catch` of `_handleRequest` ran. -/
def readPipelineThrew (store : String → StoreOutcome) (name : String) (qtype : Nat) :
    Bool :=
  let parts := parseDomainParts name
  match lookupDnsRecords (store parts.1) parts.2 with
  | none => false
  | some recordSet => (addRecordsToResponse name recordSet qtype).2.isNone

/-! ## The typed data model and the record codec -/

/-- An MX record value of the data model: a priority and an exchange. -/
structure MXValue where
  priority : Int
  exchange : String
deriving DecidableEq

/-- The per-label mapping from record type to its ordered value sequence;
a type that was never written is absent (`none`). -/
structure TypeRecords where
  A : Option (List String)
  CNAME : Option (List String)
  MX : Option (List MXValue)
deriving DecidableEq

/-- The record set of one apex domain: labels (in insertion order) mapped
to their `TypeRecords`. -/
def RecordSet : Type := List (String × TypeRecords)

instance : DecidableEq RecordSet := by
  unfold RecordSet
  infer_instance

/-- A valid record set has pairwise distinct labels (the label-uniqueness
invariant of the data model; a JSON object cannot carry duplicate keys). -/
def RecordSet.Valid (r : RecordSet) : Prop := (r.map Prod.fst).Nodup

instance (r : RecordSet) : Decidable r.Valid := by
  unfold RecordSet.Valid
  infer_instance

/-- First entry stored under a label, the entry an object with distinct
keys holds for it. -/
def assocFind : RecordSet → String → Option TypeRecords
  | [], _ => none
  | (k, tr) :: rest, key => if k = key then some tr else assocFind rest key

/-- JSON form of one MX value, as the writer builds it. -/
def jsOfMXValue (m : MXValue) : JsVal :=
  .obj [("priority", .num m.priority), ("exchange", .str m.exchange)]

/-- The optional field emitted for one record type. -/
def optFieldJs (key : String) : Option JsVal → List (String × JsVal)
  | some v => [(key, v)]
  | none => []

/-- Fields of the JSON object encoding a `TypeRecords`. -/
def trFields (tr : TypeRecords) : List (String × JsVal) :=
  optFieldJs "A" (tr.A.map fun l => .arr (l.map .str)) ++
  optFieldJs "CNAME" (tr.CNAME.map fun l => .arr (l.map .str)) ++
  optFieldJs "MX" (tr.MX.map fun l => .arr (l.map jsOfMXValue))

/-- The `encode` direction of the record codec on one label's records. -/
def encodeTypeRecords (tr : TypeRecords) : JsVal :=
  .obj (trFields tr)

/-- Fields of the JSON object encoding a `RecordSet`. -/
def encodeFields : RecordSet → List (String × JsVal)
  | [] => []
  | (k, tr) :: rest => (k, encodeTypeRecords tr) :: encodeFields rest

/-- The `encode` direction of the record codec: the serialized blob of a record
set, modelled at the level of the JSON value the blob denotes (the JSON
text itself is produced by the runtime's stringifier, which is injective on
these values). -/
def encodeRecordSet (r : RecordSet) : JsVal :=
  .obj (encodeFields r)

/-- Decode a stored value sequence of an A or CNAME entry: every element
must be a string. -/
def decodeStrList : List JsVal → Option (List String)
  | [] => some []
  | .str s :: rest => (decodeStrList rest).map fun l => s :: l
  | _ => none

/-- Decode one stored MX entry: field-wise, requiring an integer
`priority` and a string `exchange`, each exactly once and nothing else. -/
def decodeMXFields : List (String × JsVal) → Option Int → Option String → Option MXValue
  | [], some p, some e => some ⟨p, e⟩
  | [], _, _ => none
  | (k, v) :: rest, p, e =>
    if k = "priority" then
      match p, v with
      | none, .num n => decodeMXFields rest (some n) e
      | _, _ => none
    else if k = "exchange" then
      match e, v with
      | none, .str s => decodeMXFields rest p (some s)
      | _, _ => none
    else none

/-- Decode a stored MX value sequence. -/
def decodeMXList : List JsVal → Option (List MXValue)
  | [] => some []
  | .obj fs :: rest =>
    match decodeMXFields fs none none with
    | some m => (decodeMXList rest).map fun l => m :: l
    | none => none
  | _ => none

/-- Decode a stored A or CNAME value: it must be an array of strings. -/
def decodeValStrList (v : JsVal) : Option (List String) :=
  match v with
  | .arr xs => decodeStrList xs
  | _ => none

/-- Decode a stored MX value: it must be an array of MX entries. -/
def decodeValMXList (v : JsVal) : Option (List MXValue) :=
  match v with
  | .arr xs => decodeMXList xs
  | _ => none

/-- Decode a single field of one label's object into an update of the
in-progress `(A, CNAME, MX)` state: each known key may appear at most once,
and any unknown key or malformed value fails. -/
def applyTRField (k : String) (v : JsVal) (a c : Option (List String))
    (m : Option (List MXValue)) :
    Option (Option (List String) × Option (List String) × Option (List MXValue)) :=
  if k = "A" then
    match a with
    | some _ => none
    | none =>
      match decodeValStrList v with
      | some l => some (some l, c, m)
      | none => none
  else if k = "CNAME" then
    match c with
    | some _ => none
    | none =>
      match decodeValStrList v with
      | some l => some (a, some l, m)
      | none => none
  else if k = "MX" then
    match m with
    | some _ => none
    | none =>
      match decodeValMXList v with
      | some l => some (a, c, some l)
      | none => none
  else none

/-- Decode the JSON object of one label: field-wise over the three record
types via `applyTRField`. -/
def decodeTRFields : List (String × JsVal) → Option (List String) →
    Option (List String) → Option (List MXValue) → Option TypeRecords
  | [], a, c, m => some ⟨a, c, m⟩
  | (k, v) :: rest, a, c, m =>
    match applyTRField k v a c m with
    | some (a', c', m') => decodeTRFields rest a' c' m'
    | none => none

/-- Modelled from the spec: the `decode` direction of the Record Codec
(§4.3), which converts the stored blob back into a structured record set.
The repository has no explicit typed decode — the server consumes the
parsed JSON directly — so this strict decoder follows the specification's
words: decoding fails on malformed input rather than half-populating
a result. -/
def decodeTypeRecords (j : JsVal) : Option TypeRecords :=
  match j with
  | .obj fs => decodeTRFields fs none none none
  | _ => none

/-- Decode the field list of a stored record-set object, label by label. -/
def decodeRSFields : List (String × JsVal) → Option RecordSet
  | [] => some []
  | (k, v) :: rest =>
    match decodeTypeRecords v, decodeRSFields rest with
    | some tr, some r => some ((k, tr) :: r)
    | _, _ => none

/-- Modelled from the spec: decode of a whole record set (see
`decodeTypeRecords`). -/
def decodeRecordSet (j : JsVal) : Option RecordSet :=
  match j with
  | .obj fs => decodeRSFields fs
  | _ => none

/-! ## The write path (`dns-update.js`) -/

/-- Whitespace for JavaScript's `trim` and `parseInt`. -/
def isJsWS (c : Char) : Bool :=
  c = ' ' || c = '\t' || c = '\n' || c = '\r' || c = '\x0b' || c = '\x0c'

/-- JavaScript `String.prototype.trim`. -/
def jsTrim (s : String) : String :=
  String.mk (((s.data.dropWhile isJsWS).reverse.dropWhile isJsWS).reverse)

/-- Value of a non-empty digit string. -/
def digitsVal (ds : List Char) : Nat :=
  ds.foldl (fun a c => a * 10 + (c.toNat - 48)) 0

/-- The maximal leading digit run, `none` when there is none. -/
def leadingDigits (l : List Char) : Option Nat :=
  let ds := l.takeWhile Char.isDigit
  if ds = [] then none else some (digitsVal ds)

/-- JavaScript `parseInt(s, 10)`: skip leading whitespace, read an optional sign and
then the maximal run of decimal digits; `none` models `NaN`. -/
def jsParseInt (s : String) : Option Int :=
  match s.data.dropWhile isJsWS with
  | '-' :: rest => (leadingDigits rest).map fun n => -(n : Int)
  | '+' :: rest => (leadingDigits rest).map fun n => (n : Int)
  | l => (leadingDigits l).map fun n => (n : Int)

/-- Whether a string's last character is `.` (`exchange.endsWith('.')`). -/
def endsWithDot (s : String) : Bool :=
  s.data.getLast? = some '.'

/-- The exchange with `.` appended when it does not already end in one. -/
def withDot (ex : String) : String :=
  if endsWithDot ex then ex else ex ++ "."

/-- One normalized MX entry of the write path.  The priority is `none`
when `parseInt` produced `NaN`. -/
structure MXEntry where
  priority : Option Int
  exchange : String
deriving DecidableEq

/-- The per-segment MX normalization of `updateDNSRecord`: trim the
segment, split it on the space character, destructure the first two pieces
as `priority` (via `parseInt`) and `exchange`; a segment with fewer than
two pieces leaves `exchange` undefined and `exchange.endsWith` raises,
which the source's `catch` turns into a failed update. -/
def formatMxSegment (seg : String) : Except Unit MXEntry :=
  match jsSplit ' ' (jsTrim seg) with
  | [] => .error ()
  | [_] => .error ()
  | p :: ex :: _ => .ok ⟨jsParseInt p, withDot ex⟩

/-- Normalize a list of MX segments left to right; the first raising
segment aborts the whole map (the later segments are not evaluated). -/
def mxSegmentsNormalize : List String → Except Unit (List MXEntry)
  | [] => .ok []
  | seg :: rest =>
    match formatMxSegment seg with
    | .error e => .error e
    | .ok m =>
      match mxSegmentsNormalize rest with
      | .error e => .error e
      | .ok l => .ok (m :: l)

/-- MX normalization of a raw value string: split on `,` and normalize
each segment. -/
def mxNormalize (value : String) : Except Unit (List MXEntry) :=
  mxSegmentsNormalize (jsSplit ',' value)

/-- A/CNAME normalization: split on `,` and trim each piece. -/
def acNormalize (value : String) : List String :=
  (jsSplit ',' value).map jsTrim

/-- The formatted value the writer stores: a string list for A/CNAME, an
MX entry list for MX, and `undefined` for any other record type (the
source assigns the untouched `formattedValue` variable). -/
inductive Formatted where
  | strs (l : List String) : Formatted
  | mxs (l : List MXEntry) : Formatted
  | undefValue : Formatted

/-- The `formattedValue` computation of `updateDNSRecord`. -/
def formatValue (recordType value : String) : Except Unit Formatted :=
  if recordType = "A" ∨ recordType = "CNAME" then .ok (.strs (acNormalize value))
  else if recordType = "MX" then
    match mxNormalize value with
    | .error e => .error e
    | .ok l => .ok (.mxs l)
  else .ok .undefValue

/-- The JavaScript value of a formatted value (a `NaN` priority serializes
as `null`, kept here as `nan` pre-serialization). -/
def jsOfFormatted : Formatted → JsVal
  | .strs l => .arr (l.map .str)
  | .mxs l => .arr (l.map fun m =>
      .obj [("priority", match m.priority with
                         | some n => .num n
                         | none => .nan),
            ("exchange", .str m.exchange)])
  | .undefValue => .undefVal

/-- Subdomain normalization of the writer: `""` and `"@"` mean `"@"`. -/
def normalizeSub (subdomain : String) : String :=
  if subdomain = "@" ∨ subdomain = "" then "@" else subdomain

/-- The record-merging step of `updateDNSRecord` (lines 38-61): format the
value, ensure `dnsRecords[sub]` is initialized to `{}` when falsy, and
assign `dnsRecords[sub][recordType] = formattedValue`.  The result is the
object as the following `JSON.stringify` sees it; any raised `TypeError`
(e.g. the MX normalization of a spaceless segment) is `.error`.  The
assignment mutates whatever object `dnsRecords[sub]` evaluates to, so the
serialized record set reflects it only when that object is an own field of
`dnsRecords`: when `sub` names an `Object.prototype` member with no own
binding (e.g. `"constructor"`), the truthy inherited value skips the `{}`
initialization, the write lands on the inherited host object, and the
persisted blob is unchanged — the update is silently lost. -/
def updateRecords (dnsRecords : JsVal) (subdomain recordType value : String) :
    Except Unit JsVal :=
  match formatValue recordType value with
  | .error e => .error e
  | .ok fv =>
    let sub := normalizeSub subdomain
    match dnsRecords.getProp sub with
    | .error e => .error e
    | .ok cur =>
      match (if cur.truthy then .ok dnsRecords
             else dnsRecords.setProp sub (.obj []) : Except Unit JsVal) with
      | .error e => .error e
      | .ok dns1 =>
        match dns1.getProp sub with
        | .error e => .error e
        | .ok inner =>
          match inner.setProp recordType (jsOfFormatted fv) with
          | .error e => .error e
          | .ok inner2 =>
            match dns1 with
            | .obj fs =>
              if (findField fs sub).isSome then .ok (.obj (setField fs sub inner2))
              else .ok (.obj fs)
            | other => .ok other

/-- Function `updateDNSRecord` from `dns-update.js`, given the parse outcome of the
existing blob (a missing customer or missing/malformed blob starts from the
empty record set): returns the updated object to be persisted, or `none`
when an error was raised (the source catches it, logs, and persists
nothing). -/
def updateDNSRecord (existing : ParseOutcome) (subdomain recordType value : String) :
    Option JsVal :=
  let dnsRecords : JsVal :=
    match existing with
    | .absent => .obj []
    | .malformed => .obj []
    | .value j => j
  match updateRecords dnsRecords subdomain recordType value with
  | .ok j => some j
  | .error _ => none

/-! ## Helper lemmas -/

theorem findField_encodeFields (r : RecordSet) (k : String) :
    findField (encodeFields r) k = (assocFind r k).map encodeTypeRecords := by
  induction r with
  | nil => rfl
  | cons p rest ih =>
    obtain ⟨k', tr'⟩ := p
    by_cases h : k' = k
    · simp [encodeFields, findField, assocFind, h]
    · simp [encodeFields, findField, assocFind, h, ih]

theorem truthy_encodeTypeRecords (tr : TypeRecords) :
    (encodeTypeRecords tr).truthy = true := rfl

theorem protoLookup_A : protoLookup "A" = .undefVal := rfl
theorem protoLookup_CNAME : protoLookup "CNAME" = .undefVal := rfl
theorem protoLookup_MX : protoLookup "MX" = .undefVal := rfl
theorem protoLookup_at : protoLookup "@" = .undefVal := rfl
theorem protoLookup_star : protoLookup "*" = .undefVal := rfl
theorem protoLookup_zero : protoLookup "0" = .undefVal := rfl

theorem protoLookup_mem (key : String) (h : key ∈ protoMembers) :
    protoLookup key = .inherited key := by
  simp [protoLookup, h]

theorem protoLookup_not_mem (key : String) (h : key ∉ protoMembers) :
    protoLookup key = .undefVal := by
  simp [protoLookup, h]

theorem findField_trFields_A (tr : TypeRecords) :
    findField (trFields tr) "A" = tr.A.map fun l => .arr (l.map .str) := by
  obtain ⟨a, c, m⟩ := tr
  cases a <;> cases c <;> cases m <;> rfl

theorem findField_trFields_CNAME (tr : TypeRecords) :
    findField (trFields tr) "CNAME" = tr.CNAME.map fun l => .arr (l.map .str) := by
  obtain ⟨a, c, m⟩ := tr
  cases a <;> cases c <;> cases m <;> rfl

theorem findField_trFields_MX (tr : TypeRecords) :
    findField (trFields tr) "MX" = tr.MX.map fun l => .arr (l.map jsOfMXValue) := by
  obtain ⟨a, c, m⟩ := tr
  cases a <;> cases c <;> cases m <;> rfl

theorem findField_setField_same (fs : List (String × JsVal)) (k : String) (v : JsVal) :
    findField (setField fs k v) k = some v := by
  induction fs with
  | nil => simp [setField, findField]
  | cons p rest ih =>
    obtain ⟨k', w⟩ := p
    by_cases h : k' = k
    · simp [setField, findField, h]
    · simp [setField, findField, h, ih]

theorem findField_setField_other (fs : List (String × JsVal)) (k k' : String)
    (v : JsVal) (h : k' ≠ k) :
    findField (setField fs k v) k' = findField fs k' := by
  have h' : k ≠ k' := Ne.symm h
  induction fs with
  | nil => simp [setField, findField, h']
  | cons p rest ih =>
    obtain ⟨k'', w⟩ := p
    by_cases hk : k'' = k
    · subst hk
      simp [setField, findField, h']
    · by_cases hk' : k'' = k'
      · simp [setField, findField, hk, hk', h]
      · simp [setField, findField, hk, hk', ih]

theorem jsGet_obj_found (fs : List (String × JsVal)) (k : String) (v : JsVal)
    (h : findField fs k = some v) : jsGet (.obj fs) k = v := by
  simp [jsGet, h]

theorem jsGet_obj_absent (fs : List (String × JsVal)) (k : String)
    (h : findField fs k = none) : jsGet (.obj fs) k = protoLookup k := by
  simp [jsGet, h]

theorem splitChar_of_no_sep (sep : Char) (l : List Char) (h : sep ∉ l) :
    splitChar sep l = [l] := by
  induction l with
  | nil => rfl
  | cons c cs ih =>
    have hc : ¬c = sep := fun hh => h (hh ▸ List.mem_cons_self c cs)
    have hcs : sep ∉ cs := fun hh => h (List.mem_cons_of_mem c hh)
    simp [splitChar, hc, ih hcs]

theorem string_mk_data (s : String) : String.mk s.data = s := rfl

theorem strIndex?_zero : strIndex? "0" = some 0 := by decide

theorem mxLoop_encoded (name : String) (ms : List MXValue) :
    mxLoop name (ms.map jsOfMXValue) =
      (ms.map fun m => addRecord name TYPE_MX (.mx (.num m.priority) (.str m.exchange)),
       false) := by
  induction ms with
  | nil => rfl
  | cons m rest ih => simp [mxLoop, jsOfMXValue, jsGet, findField, ih]

/-! ## Claims -/

/-- C10: for a query name containing no `.`, the domain parser returns the
whole name as the apex and the sentinel `"@"` as the label, so a bare
single-label query is resolved as an apex-level lookup keyed by the name
itself. -/
theorem c10_single_label_apex (name : String) (h : '.' ∉ name.data) :
    parseDomainParts name = (name, "@") := by
  simp [parseDomainParts, jsSplit, splitChar_of_no_sep '.' name.data h,
        sliceLast2, dropLast2, joinDot, string_mk_data]

/-- Witness for C10 at the concrete name `"localhost"`. -/
theorem c10_single_label_apex_witness :
    '.' ∉ "localhost".data ∧ parseDomainParts "localhost" = ("localhost", "@") :=
  ⟨by decide, c10_single_label_apex "localhost" (by decide)⟩

/-- C3: when the apex is unknown to the store, or the stored blob fails to
parse, or the store lookup raises, the response has an empty answer
section and in particular never contains the fixed loopback fallback
answer. -/
theorem c3_not_found_is_empty (store : String → StoreOutcome) (name : String)
    (qtype : Nat)
    (h : store (parseDomainParts name).1 = .noCustomer ∨
         store (parseDomainParts name).1 = .listError ∨
         store (parseDomainParts name).1 = .customer .malformed) :
    handleRequest store name qtype = [] ∧
      fallbackAnswer name ∉ handleRequest store name qtype := by
  have hlook : lookupDnsRecords (store (parseDomainParts name).1)
      (parseDomainParts name).2 = none := by
    rcases h with h | h | h <;> rw [h] <;> rfl
  constructor
  · simp [handleRequest, hlook]
  · simp [handleRequest, hlook]

/-- Witness for C3: an apex unknown to the store yields an empty answer
section. -/
theorem c3_not_found_is_empty_witness :
    ((fun _ => StoreOutcome.noCustomer) "example.com" = .noCustomer ∨
     (fun _ => StoreOutcome.noCustomer) "example.com" = .listError ∨
     (fun _ => StoreOutcome.noCustomer) "example.com" = .customer .malformed) ∧
    handleRequest (fun _ => .noCustomer) "www.example.com" TYPE_A = [] :=
  ⟨Or.inl rfl,
   (c3_not_found_is_empty (fun _ => .noCustomer) "www.example.com" TYPE_A
     (Or.inl rfl)).1⟩

/-- C4 counterexample: with only the wildcard `"*"` stored, resolution at
the label `"constructor"` — absent from the record set and not `"@"` —
does not return the wildcard entry as the claim states: the truthy value
inherited from `Object.prototype` makes `!recordSet` false, the wildcard
fallback is skipped, and the inherited host value is returned instead. -/
theorem c4_counterexample :
    assocFind [("*", (⟨some ["9.9.9.9"], none, none⟩ : TypeRecords))]
        "constructor" = none ∧
    lookupDnsRecords
        (.customer (.value (encodeRecordSet [("*", ⟨some ["9.9.9.9"], none, none⟩)])))
        "constructor" = some (.inherited "constructor") ∧
    lookupDnsRecords
        (.customer (.value (encodeRecordSet [("*", ⟨some ["9.9.9.9"], none, none⟩)])))
        "constructor" ≠
      (assocFind [("*", (⟨some ["9.9.9.9"], none, none⟩ : TypeRecords))] "*").map
        encodeTypeRecords :=
  ⟨by decide, rfl, fun h => JsVal.noConfusion (Option.some.inj h)⟩

/-- C4 (amended): resolution returns the TypeRecords stored under the
exact label when present (an own property shadows the prototype); when
absent, a label naming an `Object.prototype` member (`constructor`,
`toString`, `__proto__`, ...) resolves to the truthy inherited host value,
skipping the wildcard fallback; otherwise, when the label is not `"@"`,
resolution returns the TypeRecords stored under `"*"`; otherwise it
returns nothing. -/
theorem c4_amended_exact_proto_wildcard (r : RecordSet) (label : String) :
    lookupDnsRecords (.customer (.value (encodeRecordSet r))) label =
      match assocFind r label with
      | some tr => some (encodeTypeRecords tr)
      | none =>
        if label ∈ protoMembers then some (.inherited label)
        else if label = "@" then none
        else (assocFind r "*").map encodeTypeRecords := by
  have hget := findField_encodeFields r label
  have hwild := findField_encodeFields r "*"
  cases hf : assocFind r label with
  | some tr =>
    rw [hf] at hget
    simp [lookupDnsRecords, encodeRecordSet, JsVal.getProp, jsGet, hget,
          encodeTypeRecords, JsVal.truthy]
  | none =>
    rw [hf] at hget
    by_cases hp : label ∈ protoMembers
    · simp [lookupDnsRecords, encodeRecordSet, JsVal.getProp, jsGet, hget,
            protoLookup_mem label hp, hp, JsVal.truthy]
    · by_cases hl : label = "@"
      · subst hl
        simp [lookupDnsRecords, encodeRecordSet, JsVal.getProp, jsGet, hget,
              protoLookup_at, hp, JsVal.truthy]
      · cases hw : assocFind r "*" with
        | some tr' =>
          rw [hw] at hwild
          simp [lookupDnsRecords, encodeRecordSet, JsVal.getProp, jsGet, hget,
                hwild, protoLookup_not_mem label hp, hp, JsVal.truthy, hl,
                encodeTypeRecords]
        | none =>
          rw [hw] at hwild
          simp [lookupDnsRecords, encodeRecordSet, JsVal.getProp, jsGet, hget,
                hwild, protoLookup_not_mem label hp, hp, JsVal.truthy, hl,
                protoLookup_star]

/-- C7: an MX query on an entry with stored MX values yields one answer
per stored value, in exactly the stored sequence order (in particular the
answers are not re-sorted by priority). -/
theorem c7_mx_stored_order (name : String) (tr : TypeRecords) (ms : List MXValue)
    (h : tr.MX = some ms) :
    (addRecordsToResponse name (encodeTypeRecords tr) TYPE_MX).1 =
      ms.map fun m => addRecord name TYPE_MX (.mx (.num m.priority) (.str m.exchange)) := by
  have hmx := findField_trFields_MX tr
  rw [h] at hmx
  simp [addRecordsToResponse, TYPE_MX, TYPE_A, TYPE_CNAME, encodeTypeRecords,
        JsVal.getProp, jsGet, hmx, JsVal.truthy, mxLoop_encoded]

/-- Witness for C7: the stored order `[{20, b.com.}, {10, a.com.}]` is
served verbatim, not sorted by priority. -/
theorem c7_mx_stored_order_witness :
    (TypeRecords.MX ⟨none, none, some [⟨20, "b.com."⟩, ⟨10, "a.com."⟩]⟩ =
      some [⟨20, "b.com."⟩, ⟨10, "a.com."⟩]) ∧
    (addRecordsToResponse "example.com"
        (encodeTypeRecords ⟨none, none, some [⟨20, "b.com."⟩, ⟨10, "a.com."⟩]⟩)
        TYPE_MX).1 =
      [addRecord "example.com" TYPE_MX (.mx (.num 20) (.str "b.com.")),
       addRecord "example.com" TYPE_MX (.mx (.num 10) (.str "a.com."))] :=
  ⟨rfl,
   c7_mx_stored_order "example.com" ⟨none, none, some [⟨20, "b.com."⟩, ⟨10, "a.com."⟩]⟩
     [⟨20, "b.com."⟩, ⟨10, "a.com."⟩] rfl⟩

/-- C9: when more than one CNAME value is stored, both a CNAME query and
an A query falling back to CNAME serve exactly one answer carrying the
first stored value; the remaining values are never served. -/
theorem c9_only_first_cname (name : String) (tr : TypeRecords) (c : String)
    (cs : List String) (h : tr.CNAME = some (c :: cs)) (_hcs : cs ≠ []) :
    (addRecordsToResponse name (encodeTypeRecords tr) TYPE_CNAME).1 =
      [addRecord name TYPE_CNAME (.cname (.str c))] ∧
    (tr.A = none →
      (addRecordsToResponse name (encodeTypeRecords tr) TYPE_A).1 =
        [addRecord name TYPE_CNAME (.cname (.str c))]) := by
  have hc := findField_trFields_CNAME tr
  rw [h] at hc
  constructor
  · simp [addRecordsToResponse, TYPE_CNAME, TYPE_A, cnameBranch, encodeTypeRecords,
          JsVal.getProp, jsGet, hc, JsVal.truthy, strIndex?_zero]
  · intro hA
    have ha := findField_trFields_A tr
    rw [hA] at ha
    simp [addRecordsToResponse, TYPE_A, cnameBranch, encodeTypeRecords,
          JsVal.getProp, jsGet, ha, hc, JsVal.truthy, strIndex?_zero,
          protoLookup_A]

/-- Witness for C9 with two stored CNAME values. -/
theorem c9_only_first_cname_witness :
    (TypeRecords.CNAME ⟨none, some ["a.com.", "b.com."], none⟩ =
      some ["a.com.", "b.com."]) ∧
    (addRecordsToResponse "www.example.com"
        (encodeTypeRecords ⟨none, some ["a.com.", "b.com."], none⟩) TYPE_CNAME).1 =
      [addRecord "www.example.com" TYPE_CNAME (.cname (.str "a.com."))] ∧
    (addRecordsToResponse "www.example.com"
        (encodeTypeRecords ⟨none, some ["a.com.", "b.com."], none⟩) TYPE_A).1 =
      [addRecord "www.example.com" TYPE_CNAME (.cname (.str "a.com."))] := by
  have h := c9_only_first_cname "www.example.com"
    ⟨none, some ["a.com.", "b.com."], none⟩ "a.com." ["b.com."] rfl (by decide)
  exact ⟨rfl, h.1, h.2 rfl⟩

/-- The answer list claimed for an A query (claim C1 read literally): one A
answer per stored A value, else one CNAME answer per stored CNAME value
(``the CNAME values are returned''), else empty.  This definition follows
the claim's words, for comparison against the source's behavior. -/
def claimedAAnswers (name : String) (tr : TypeRecords) : List Answer :=
  match tr.A with
  | some ips => ips.map fun ip => addRecord name TYPE_A (.a (.str ip))
  | none =>
    match tr.CNAME with
    | some cl => cl.map fun c => addRecord name TYPE_CNAME (.cname (.str c))
    | none => []

/-- C1 counterexample: with two stored CNAME values and no A values, an A
query emits a single CNAME answer, not one answer per stored CNAME value
as the claim states. -/
theorem c1_counterexample :
    (addRecordsToResponse "www.example.com"
        (encodeTypeRecords ⟨none, some ["a.com.", "b.com."], none⟩) TYPE_A).1 ≠
      claimedAAnswers "www.example.com" ⟨none, some ["a.com.", "b.com."], none⟩ :=
  fun hEq => absurd (congrArg List.length hEq) (by decide)

/-- C1 (amended): for an A query resolved to a `TypeRecords` entry, if A
values are stored, one A answer is emitted per stored value in stored
order; else if CNAME values are stored, exactly one CNAME answer carrying
the first stored CNAME value is emitted with answer type CNAME (its target
is undefined when the stored CNAME list is empty); else the answer section
is empty. -/
theorem c1_amended_a_query_fallback (name : String) (tr : TypeRecords) :
    (addRecordsToResponse name (encodeTypeRecords tr) TYPE_A).1 =
      match tr.A with
      | some ips => ips.map fun ip => addRecord name TYPE_A (.a (.str ip))
      | none =>
        match tr.CNAME with
        | some cl => [addRecord name TYPE_CNAME (.cname (cl.head?.elim .undefVal .str))]
        | none => [] := by
  cases hA : tr.A with
  | some ips =>
    have ha := findField_trFields_A tr
    rw [hA] at ha
    simp [addRecordsToResponse, TYPE_A, encodeTypeRecords, JsVal.getProp, jsGet,
          ha, JsVal.truthy, List.map_map, Function.comp]
  | none =>
    have ha := findField_trFields_A tr
    rw [hA] at ha
    cases hC : tr.CNAME with
    | some cl =>
      have hc := findField_trFields_CNAME tr
      rw [hC] at hc
      cases cl with
      | nil =>
        simp [addRecordsToResponse, TYPE_A, cnameBranch, encodeTypeRecords,
              JsVal.getProp, jsGet, ha, hc, JsVal.truthy, strIndex?_zero,
              protoLookup_A, protoLookup_zero]
      | cons c cs =>
        simp [addRecordsToResponse, TYPE_A, cnameBranch, encodeTypeRecords,
              JsVal.getProp, jsGet, ha, hc, JsVal.truthy, strIndex?_zero,
              protoLookup_A]
    | none =>
      have hc := findField_trFields_CNAME tr
      rw [hC] at hc
      simp [addRecordsToResponse, TYPE_A, cnameBranch, encodeTypeRecords,
            JsVal.getProp, jsGet, ha, hc, JsVal.truthy, protoLookup_A,
            protoLookup_CNAME]

/-- A store whose blob parses but holds a malformed second MX entry
(`null`): serving it pushes one well-formed MX answer and then raises a
`TypeError` reading `null.exchange`, which escapes to the outer `catch`. -/
def throwingStore : String → StoreOutcome := fun _ =>
  .customer (.value (.obj [("@", .obj [("MX",
    .arr [.obj [("priority", .num 10), ("exchange", .str "a.com.")],
          .null])])]))

/-- C2 counterexample: an unexpected failure escapes the fail-soft boundary
while serving the second MX entry, yet the response contains two answers
(the MX answer pushed before the failure plus the fixed fallback), not
exactly one. -/
theorem c2_counterexample :
    readPipelineThrew throwingStore "example.com" TYPE_MX = true ∧
      (handleRequest throwingStore "example.com" TYPE_MX).length = 2 := by
  constructor
  · decide
  · decide

/-- C2 (amended): whenever the read pipeline raises an unexpected failure
(anything escaping the fail-soft boundary), the fixed answer
`{name = queried name, type = A, class = IN, ttl = 300,
address = "127.0.0.1"}` is appended after any answers already synthesized
before the failure; the response therefore contains exactly that one
answer only when the failure occurred before any answer was pushed. -/
theorem c2_amended_fallback_appended (store : String → StoreOutcome)
    (name : String) (qtype : Nat) (h : readPipelineThrew store name qtype = true) :
    ∃ pre, handleRequest store name qtype = pre ++ [fallbackAnswer name] := by
  cases hl : lookupDnsRecords (store (parseDomainParts name).1)
      (parseDomainParts name).2 with
  | none =>
    rw [readPipelineThrew, hl] at h
    exact absurd h (by simp)
  | some rs =>
    simp only [readPipelineThrew, hl] at h
    cases ha : addRecordsToResponse name rs qtype with
    | mk pushed o =>
      cases o with
      | some b =>
        rw [ha] at h
        simp at h
      | none =>
        refine ⟨pushed, ?_⟩
        simp only [handleRequest, hl, ha]

/-- Witness for C2 (amended) at the concrete throwing store. -/
theorem c2_amended_fallback_appended_witness :
    readPipelineThrew throwingStore "example.com" TYPE_MX = true ∧
      ∃ pre, handleRequest throwingStore "example.com" TYPE_MX =
        pre ++ [fallbackAnswer "example.com"] :=
  ⟨by decide,
   c2_amended_fallback_appended throwingStore "example.com" TYPE_MX (by decide)⟩

theorem decodeStrList_encode (l : List String) :
    decodeStrList (l.map .str) = some l := by
  induction l with
  | nil => rfl
  | cons s rest ih => simp [decodeStrList, ih]

theorem decodeMXFields_encode (m : MXValue) :
    decodeMXFields [("priority", .num m.priority), ("exchange", .str m.exchange)]
      none none = some m := rfl

theorem decodeMXList_encode (l : List MXValue) :
    decodeMXList (l.map jsOfMXValue) = some l := by
  induction l with
  | nil => rfl
  | cons m rest ih =>
    simp [decodeMXList, jsOfMXValue, decodeMXFields_encode m, ih]

theorem decodeTypeRecords_encode (tr : TypeRecords) :
    decodeTypeRecords (encodeTypeRecords tr) = some tr := by
  obtain ⟨a, c, m⟩ := tr
  cases a <;> cases c <;> cases m <;>
    simp [encodeTypeRecords, trFields, optFieldJs, decodeTypeRecords,
          decodeTRFields, applyTRField, decodeValStrList, decodeValMXList,
          decodeStrList_encode, decodeMXList_encode]

/-- C5: decoding the encoding of a valid record set yields it back:
`decode(encode(r)) = r`.  (The codec is modelled at the level of the JSON
value the stored blob denotes; the runtime's JSON stringifier and parser
are mutually inverse on such values.) -/
theorem c5_decode_encode (r : RecordSet) (_hvalid : r.Valid) :
    decodeRecordSet (encodeRecordSet r) = some r := by
  induction r with
  | nil => rfl
  | cons p rest ih =>
    obtain ⟨k, tr⟩ := p
    have ih' := ih (by
      have : (rest.map Prod.fst).Nodup := by
        have h2 := _hvalid
        simp [RecordSet.Valid, List.nodup_cons] at h2
        exact h2.2
      exact this)
    simp only [decodeRecordSet, encodeRecordSet, encodeFields, decodeRSFields,
               decodeTypeRecords_encode]
    simp only [decodeRecordSet, encodeRecordSet] at ih'
    rw [ih']

/-- Witness for C5 at a concrete two-label record set. -/
theorem c5_decode_encode_witness :
    RecordSet.Valid [("@", ⟨some ["1.1.1.1"], none, some [⟨10, "mail.x.com."⟩]⟩),
                     ("www", ⟨none, some ["a.com."], none⟩)] ∧
    decodeRecordSet (encodeRecordSet
        [("@", ⟨some ["1.1.1.1"], none, some [⟨10, "mail.x.com."⟩]⟩),
         ("www", ⟨none, some ["a.com."], none⟩)]) =
      some [("@", ⟨some ["1.1.1.1"], none, some [⟨10, "mail.x.com."⟩]⟩),
            ("www", ⟨none, some ["a.com."], none⟩)] :=
  ⟨by decide,
   c5_decode_encode
     [("@", ⟨some ["1.1.1.1"], none, some [⟨10, "mail.x.com."⟩]⟩),
      ("www", ⟨none, some ["a.com."], none⟩)] (by decide)⟩

/-- The value sequence the serialized record set stores at a
(label, record type) pair: the own field of the own field, `none` when
either level stores nothing.  `JSON.stringify` serializes own properties
only, so this is exactly what the persisted blob holds at that pair. -/
def storedAt (j : JsVal) (label rtype : String) : Option JsVal :=
  match j with
  | .obj fs =>
    match findField fs label with
    | some inner =>
      match inner with
      | .obj tfs => findField tfs rtype
      | _ => none
    | none => none
  | _ => none

theorem setField_setField (fs : List (String × JsVal)) (k : String) (v w : JsVal) :
    setField (setField fs k v) k w = setField fs k w := by
  induction fs with
  | nil => simp [setField]
  | cons p rest ih =>
    obtain ⟨k', u⟩ := p
    by_cases hk : k' = k
    · simp [setField, hk]
    · simp [setField, hk, ih]

theorem updateRecords_encode_found (r : RecordSet)
    (subdomain recordType value : String) (fv : Formatted) (tr : TypeRecords)
    (hfv : formatValue recordType value = .ok fv)
    (hrt : recordType ≠ "__proto__")
    (htr : assocFind r (normalizeSub subdomain) = some tr) :
    updateRecords (encodeRecordSet r) subdomain recordType value =
      .ok (.obj (setField (encodeFields r) (normalizeSub subdomain)
        (.obj (setField (trFields tr) recordType (jsOfFormatted fv))))) := by
  have hget := findField_encodeFields r (normalizeSub subdomain)
  rw [htr] at hget
  simp [updateRecords, hfv, encodeRecordSet, JsVal.getProp, jsGet, hget,
        encodeTypeRecords, JsVal.truthy, JsVal.setProp, hrt]

theorem updateRecords_encode_absent (r : RecordSet)
    (subdomain recordType value : String) (fv : Formatted)
    (hfv : formatValue recordType value = .ok fv)
    (hsub : normalizeSub subdomain ∉ protoMembers)
    (hrt : recordType ≠ "__proto__")
    (htr : assocFind r (normalizeSub subdomain) = none) :
    updateRecords (encodeRecordSet r) subdomain recordType value =
      .ok (.obj (setField (encodeFields r) (normalizeSub subdomain)
        (.obj [(recordType, jsOfFormatted fv)]))) := by
  have hget := findField_encodeFields r (normalizeSub subdomain)
  rw [htr] at hget
  have hsubp : normalizeSub subdomain ≠ "__proto__" := by
    intro hh
    exact hsub (by rw [hh]; decide)
  have hsame := findField_setField_same (encodeFields r) (normalizeSub subdomain)
    (.obj [])
  simp [updateRecords, hfv, encodeRecordSet, JsVal.getProp, jsGet, hget,
        protoLookup_not_mem _ hsub, JsVal.truthy, JsVal.setProp, hsubp, hrt,
        hsame, setField_setField, setField]

/-- C6 counterexample: updating at the label `"constructor"` — an
`Object.prototype` member with no own binding — succeeds but persists a
blob identical to the original: the truthy inherited value skips the `{}`
initialization, the assignment lands on the inherited host object, and
`JSON.stringify` never sees it, so nothing is stored at the
(`"constructor"`, `"MX"`) pair and the claimed replacement does not
happen. -/
theorem c6_counterexample :
    formatValue "MX" "10 mail.x.com." = .ok (.mxs [⟨some 10, "mail.x.com."⟩]) ∧
    updateDNSRecord
        (.value (encodeRecordSet [("@", ⟨some ["1.1.1.1"], none, none⟩)]))
        "constructor" "MX" "10 mail.x.com." =
      some (encodeRecordSet [("@", ⟨some ["1.1.1.1"], none, none⟩)]) ∧
    storedAt (encodeRecordSet [("@", ⟨some ["1.1.1.1"], none, none⟩)])
        "constructor" "MX" = none :=
  ⟨rfl, rfl, rfl⟩

/-- C6 (amended): for a normalized label that is not an `Object.prototype`
member and a record type other than `__proto__`, a successful update
replaces exactly the value stored at the (label, record type) pair of the
serialized record set with the formatted value and leaves every other
(label, type) pair unchanged — in particular, writing a new type on a
label does not erase a previously written type on the same label.  (For a
label naming an `Object.prototype` member, the write lands on the
inherited host object and is dropped by serialization.) -/
theorem c6_amended_update_frame (r : RecordSet)
    (subdomain recordType value : String) (updated : JsVal)
    (hsub : normalizeSub subdomain ∉ protoMembers)
    (hrt : recordType ≠ "__proto__")
    (h : updateDNSRecord (.value (encodeRecordSet r)) subdomain recordType value =
      some updated) :
    (∃ fv, formatValue recordType value = .ok fv ∧
      storedAt updated (normalizeSub subdomain) recordType =
        some (jsOfFormatted fv)) ∧
    ∀ l t, ¬(l = normalizeSub subdomain ∧ t = recordType) →
      storedAt updated l t = storedAt (encodeRecordSet r) l t := by
  cases hfv : formatValue recordType value with
  | error e =>
    rw [updateDNSRecord] at h
    simp only [updateRecords, hfv] at h
    exact absurd h (by simp)
  | ok fv =>
    cases htr : assocFind r (normalizeSub subdomain) with
    | some tr =>
      rw [updateDNSRecord] at h
      rw [updateRecords_encode_found r subdomain recordType value fv tr hfv hrt
        htr] at h
      have hu := (Option.some.inj h).symm
      subst hu
      have hget := findField_encodeFields r (normalizeSub subdomain)
      rw [htr] at hget
      constructor
      · exact ⟨fv, rfl, by simp [storedAt, findField_setField_same]⟩
      · intro l t hne
        by_cases hl : l = normalizeSub subdomain
        · subst hl
          have ht : t ≠ recordType := fun hh => hne ⟨rfl, hh⟩
          simp [storedAt, findField_setField_same,
                findField_setField_other _ _ _ _ ht, hget, encodeTypeRecords,
                encodeRecordSet]
        · simp [storedAt, findField_setField_other _ _ _ _ hl, encodeRecordSet]
    | none =>
      rw [updateDNSRecord] at h
      rw [updateRecords_encode_absent r subdomain recordType value fv hfv hsub
        hrt htr] at h
      have hu := (Option.some.inj h).symm
      subst hu
      have hget := findField_encodeFields r (normalizeSub subdomain)
      rw [htr] at hget
      constructor
      · exact ⟨fv, rfl, by simp [storedAt, findField_setField_same, findField]⟩
      · intro l t hne
        by_cases hl : l = normalizeSub subdomain
        · subst hl
          have ht : t ≠ recordType := fun hh => hne ⟨rfl, hh⟩
          simp [storedAt, findField_setField_same, findField, Ne.symm ht, hget,
                encodeRecordSet]
        · simp [storedAt, findField_setField_other _ _ _ _ hl, encodeRecordSet]

/-- Witness for C6 (amended): writing an MX record on `"@"` stores it and
does not erase the A record previously written on the same label. -/
theorem c6_amended_update_frame_witness :
    normalizeSub "@" ∉ protoMembers ∧ "MX" ≠ "__proto__" ∧
    ∃ u, updateDNSRecord
        (.value (encodeRecordSet [("@", ⟨some ["1.2.3.4", "5.6.7.8"], none, none⟩)]))
        "@" "MX" "10 mail.x.com." = some u ∧
      storedAt u "@" "A" =
        storedAt (encodeRecordSet [("@", ⟨some ["1.2.3.4", "5.6.7.8"], none, none⟩)])
          "@" "A" :=
  ⟨by decide, by decide, _, rfl,
   (c6_amended_update_frame [("@", ⟨some ["1.2.3.4", "5.6.7.8"], none, none⟩)]
       "@" "MX" "10 mail.x.com." _ (by decide) (by decide) rfl).2 "@" "A"
     (by decide)⟩

/-- Split a character list at its first whitespace character: the part
before it and the part after it, or `none` when there is none. -/
def splitFirstWhitespace (l : List Char) : Option (List Char × List Char) :=
  match l.dropWhile (fun c => !isJsWS c) with
  | [] => none
  | _ :: after => some (l.takeWhile (fun c => !isJsWS c), after)

/-- The MX normalization as claim C8 describes it: split the raw value on
`,`, split each segment on its first whitespace into a priority (parsed as
an integer) and an exchange string, and append `.` to the exchange iff it
does not already end in `.`.  This definition follows the claim's words,
for comparison against the source's normalization. -/
def mxClaimedSegments : List String → Except Unit (List MXEntry)
  | [] => .ok []
  | seg :: rest =>
    match splitFirstWhitespace seg.data with
    | none => .error ()
    | some (p, ex) =>
      match mxClaimedSegments rest with
      | .error e => .error e
      | .ok l =>
        .ok (⟨jsParseInt (String.mk p),
              if endsWithDot (String.mk ex) then String.mk ex
              else String.mk ex ++ "."⟩ :: l)

/-- See `mxClaimedSegments`. -/
def mxNormalizeClaimed (value : String) : Except Unit (List MXEntry) :=
  mxClaimedSegments (jsSplit ',' value)

/-- C8 counterexample: on the raw value `"10 a b"` the source splits the
segment on every space and keeps only the first two pieces, producing
exchange `"a."`, while splitting on the first whitespace as the claim
states would produce exchange `"a b."`. -/
theorem c8_counterexample :
    (mxNormalize "10 a b").toOption ≠ (mxNormalizeClaimed "10 a b").toOption := by
  decide

theorem endsWithDot_append_dot (ex : String) : endsWithDot (ex ++ ".") = true := by
  simp [endsWithDot, String.data_append]

theorem endsWithDot_withDot (ex : String) : endsWithDot (withDot ex) = true := by
  rw [withDot]
  by_cases h : endsWithDot ex
  · rw [if_pos h]
    exact h
  · rw [if_neg h]
    exact endsWithDot_append_dot ex

theorem mxSegmentsNormalize_ok (segs : List String) (res : List MXEntry)
    (h : mxSegmentsNormalize segs = .ok res) :
    List.Forall₂ (fun seg e => ∃ p ex rest,
        jsSplit ' ' (jsTrim seg) = p :: ex :: rest ∧
        e.priority = jsParseInt p ∧
        endsWithDot e.exchange = true ∧
        (endsWithDot ex = true → e.exchange = ex) ∧
        (endsWithDot ex = false → e.exchange = ex ++ "."))
      segs res := by
  induction segs generalizing res with
  | nil =>
    simp only [mxSegmentsNormalize] at h
    cases h
    exact List.Forall₂.nil
  | cons seg rest ih =>
    rw [mxSegmentsNormalize] at h
    cases hseg : formatMxSegment seg with
    | error e =>
      rw [hseg] at h
      cases h
    | ok m =>
      rw [hseg] at h
      cases hrest : mxSegmentsNormalize rest with
      | error e =>
        rw [hrest] at h
        cases h
      | ok l =>
        rw [hrest] at h
        cases h
        refine List.Forall₂.cons ?_ (ih l hrest)
        rw [formatMxSegment] at hseg
        cases hsp : jsSplit ' ' (jsTrim seg) with
        | nil =>
          rw [hsp] at hseg
          cases hseg
        | cons p tl =>
          cases tl with
          | nil =>
            rw [hsp] at hseg
            cases hseg
          | cons ex tl2 =>
            rw [hsp] at hseg
            cases hseg
            refine ⟨p, ex, tl2, rfl, rfl, endsWithDot_withDot ex, ?_, ?_⟩
            · intro hd
              rw [withDot, if_pos hd]
            · intro hd
              rw [withDot, if_neg (by simp [hd])]

/-- C8 (amended): the write-path MX normalization splits the raw value on
`,`, trims each segment and splits it on every single space character,
taking the first piece as the priority (parsed with `parseInt`) and the
second piece as the exchange (pieces after the second are discarded), and
appends `.` to the exchange if and only if it does not already end in `.`
(a segment with fewer than two space-separated pieces makes the whole
update fail). -/
theorem c8_amended_mx_normalization (v : String) (res : List MXEntry)
    (h : mxNormalize v = .ok res) :
    List.Forall₂ (fun seg e => ∃ p ex rest,
        jsSplit ' ' (jsTrim seg) = p :: ex :: rest ∧
        e.priority = jsParseInt p ∧
        endsWithDot e.exchange = true ∧
        (endsWithDot ex = true → e.exchange = ex) ∧
        (endsWithDot ex = false → e.exchange = ex ++ "."))
      (jsSplit ',' v) res :=
  mxSegmentsNormalize_ok (jsSplit ',' v) res h

/-- Witness for C8 (amended) on a concrete two-segment MX value. -/
theorem c8_amended_mx_normalization_witness :
    mxNormalize "10 mail.x.com.,20 mx2.y.z" =
      .ok [⟨some 10, "mail.x.com."⟩, ⟨some 20, "mx2.y.z."⟩] ∧
    List.Forall₂ (fun (seg : String) (e : MXEntry) => ∃ p ex rest,
        jsSplit ' ' (jsTrim seg) = p :: ex :: rest ∧
        e.priority = jsParseInt p ∧
        endsWithDot e.exchange = true ∧
        (endsWithDot ex = true → e.exchange = ex) ∧
        (endsWithDot ex = false → e.exchange = ex ++ "."))
      (jsSplit ',' "10 mail.x.com.,20 mx2.y.z")
      [⟨some 10, "mail.x.com."⟩, ⟨some 20, "mx2.y.z."⟩] :=
  ⟨rfl,
   c8_amended_mx_normalization "10 mail.x.com.,20 mx2.y.z"
     [⟨some 10, "mail.x.com."⟩, ⟨some 20, "mx2.y.z."⟩] rfl⟩
